import Mathlib

/-!
# Verification of the eveH5 data-alignment / join engine

The repository exposes its interface in `src/eveH5.h`: enums (`FillRule`,
`DeviceType`, `DataType`) and abstract classes (`MetaData`, `Data`,
`JoinedData`, `DataFile`) whose member functions are pure virtual; the
implementation of the join engine is not part of the sources available
here.  The enums and the shapes of the records are embedded from the
header; the behaviour of the join engine (`JoinedData::getCombinedData`
and the accessors of the resulting table) is modelled from the spec, as
indicated on each definition.

Values are modelled over `Int` (the worked examples of the spec use
integer-valued samples); the floating-point NaN sentinel of the NaN fill
rules is modelled as a distinguished cell constructor `Cell.nan`, since
claims only use NaN as a sentinel, never arithmetically.
-/

namespace EveH5

/-- `FillRule` from `src/eveH5.h` lines 14-20. -/
inductive FillRule where
  | NoFill
  | LastFill
  | NANFill
  | LastNANFill
deriving DecidableEq, Repr

/-- `DeviceType` from `src/eveH5.h` lines 25-30. -/
inductive DeviceType where
  | Unknown
  | Channel
  | Axis
deriving DecidableEq, Repr

/-- `DataType` from `src/eveH5.h` lines 45-59. -/
inductive DataType where
  | DTunknown
  | DTstring
  | DTint32
  | DTfloat64
  | DTint8
  | DTint16
  | DTint64
  | DTuint8
  | DTuint16
  | DTuint32
  | DTuint64
  | DTfloat32
deriving DecidableEq, Repr

/-- Modelled from the spec: the floating-point data types, the only ones
for which the NaN sentinel of `NANFill` is valid (spec section 7,
`UnfillableType`). -/
def DataType.isFloating : DataType → Bool
  | .DTfloat64 => true
  | .DTfloat32 => true
  | _ => false

/-- Statistical aggregate fields of one sample (spec section 3,
`RawSample`: "attempt counts, limits, deviations"; accessors
`Data::getAverageAttempts` etc. in `src/eveH5.h` lines 146-195). -/
structure Stats where
  maxAttempts : Int
  attempts : Int
  count : Int
  maxCount : Int
  limit : Int
  maxDeviation : Int
deriving DecidableEq, Repr

/-- One `RawSample` (spec section 3): a position reference paired with a
value and optional statistical aggregate fields. -/
structure Sample where
  posRef : Int
  value : Int
  stats : Option Stats
deriving DecidableEq, Repr

/-- `MetaRecord` (spec section 3), matching the accessors of the
`MetaData` abstract class in `src/eveH5.h` lines 61-112. -/
structure MetaRecord where
  name : String
  unit : String
  id : String
  channelId : String
  normalizeId : String
  attributes : List (String × String)
  deviceType : DeviceType
  dataType : DataType
  dimRows : Int
  dimCols : Int
deriving DecidableEq, Repr

/-- `Column` (spec section 3): a device series paired with its
`MetaRecord`.  The series is the list of samples in file order. -/
structure Column where
  meta : MetaRecord
  samples : List Sample
deriving DecidableEq, Repr

/-- The position references of a column's series, in series order
(models `Data::getPosReferences`, `src/eveH5.h` line 122). -/
def Column.posRefs (c : Column) : List Int :=
  c.samples.map (·.posRef)

/-- Strict ascent of a list of position references (spec section 3,
`DeviceSeries` invariant: "sorted ascending by position reference, no
duplicate position references"). -/
def strictlyAscending : List Int → Bool
  | [] => true
  | [_] => true
  | a :: b :: rest => a < b && strictlyAscending (b :: rest)

/-- One cell of the joined table: a real sample's value (with its
statistical fields), a carried-forward axis value (`LastFill`), the NaN
sentinel (`NANFill`), or an absent cell.  Only a real cell carries
statistical fields. -/
inductive Cell where
  | real (v : Int) (stats : Option Stats)
  | filled (v : Int)
  | nan
  | absent
deriving DecidableEq, Repr

/-- Modelled from the spec: errors of the join engine (spec section 7).
`IncompatibleArrayDimension` concerns array-valued columns, which no
claim exercises, and is omitted. -/
inductive JoinError where
  | MalformedSeries (col : Nat)
  | UnfillableType (col : Nat)
deriving DecidableEq, Repr

/-- `JoinedTable` (spec section 3): an ordered sequence of row position
references, the unchanged metadata of each input column in order, and
one buffer of cells per column. -/
structure JoinedTable where
  posRefs : List Int
  metas : List MetaRecord
  cells : List (List Cell)
deriving DecidableEq, Repr

/-- Modelled from the spec: does the rule carry axis values forward
(spec section 4.2: `LastFill` and `LastNANFill`)? -/
def FillRule.fillsAxis : FillRule → Bool
  | .LastFill => true
  | .LastNANFill => true
  | _ => false

/-- Modelled from the spec: does the rule fill channel gaps with the NaN
sentinel (spec section 4.2: `NANFill` and `LastNANFill`)? -/
def FillRule.fillsChannel : FillRule → Bool
  | .NANFill => true
  | .LastNANFill => true
  | _ => false

/-- The most recent sample strictly before position reference `p` (spec
section 4.3: the "last real value" cursor of an axis column).  For a
strictly ascending series the last element of the filtered list is the
latest prior sample. -/
def lastBefore (samples : List Sample) (p : Int) : Option Sample :=
  (samples.filter (fun s => s.posRef < p)).getLast?

/-- Modelled from the spec: the cell the join engine produces for column
`c` at row position reference `p` (spec section 4.3): an exact sample is
used as is; otherwise the fill substitution of section 4.2 for the
column's device type under the active rule; otherwise the cell is
absent. -/
def cellAt (rule : FillRule) (c : Column) (p : Int) : Cell :=
  match c.samples.find? (fun s => s.posRef == p) with
  | some s => .real s.value s.stats
  | none =>
    match c.meta.deviceType with
    | .Axis =>
      if rule.fillsAxis then
        match lastBefore c.samples p with
        | some s => .filled s.value
        | none => .absent
      else .absent
    | .Channel => if rule.fillsChannel then .nan else .absent
    | .Unknown => .absent

/-- Sorted duplicate-free normalisation of a list of position
references (spec section 4.2, tie-break: "rows are sorted strictly
ascending"). -/
def dedupSort (l : List Int) : List Int :=
  List.insertionSort (· ≤ ·) l.dedup

/-- Modelled from the spec: `PositionIndex.buildRowIndex` (spec section
4.2): `NoFill` keeps the intersection of all columns' position
references, every other rule their union, sorted strictly ascending. -/
def rowIndex (cols : List Column) (rule : FillRule) : List Int :=
  let union := dedupSort (cols.map Column.posRefs).flatten
  match rule with
  | .NoFill => union.filter (fun p => cols.all (fun c => c.posRefs.contains p))
  | _ => union

/-- Modelled from the spec: the index of the first column whose series
violates the `DeviceSeries` invariant (spec section 4.1, adaptation
fails with `MalformedSeries`). -/
def malformedIdx (cols : List Column) : Option Nat :=
  cols.findIdx? (fun c => !(strictlyAscending c.posRefs))

/-- Modelled from the spec: the index of the first channel column whose
data type is not floating-point, checked when the requested rule fills
channels with NaN (spec section 7, `UnfillableType`). -/
def unfillableIdx (cols : List Column) (rule : FillRule) : Option Nat :=
  if rule.fillsChannel then
    cols.findIdx? (fun c =>
      c.meta.deviceType == DeviceType.Channel && !(c.meta.dataType.isFloating))
  else none

/-- Modelled from the spec: `JoinEngine.combine` alias
`JoinedData::getCombinedData` (`src/eveH5.h` line 283, implementation
not in the sources): adaptation checks first, then the fill-type check,
then one pass producing every cell of the table; atomic success or
error. -/
def combine (cols : List Column) (rule : FillRule) : Except JoinError JoinedTable :=
  match malformedIdx cols with
  | some i => .error (.MalformedSeries i)
  | none =>
    match unfillableIdx cols rule with
    | some i => .error (.UnfillableType i)
    | none =>
      let rows := rowIndex cols rule
      .ok { posRefs := rows
            metas := cols.map Column.meta
            cells := cols.map (fun c => rows.map (cellAt rule c)) }

/-- `JoinedData::getValueCount` (`src/eveH5.h` lines 309-313): the
number of rows, the size of each column array. -/
def JoinedTable.getValueCount (t : JoinedTable) : Nat :=
  t.posRefs.length

/-- `JoinedData::getPosReferences` (`src/eveH5.h` lines 322-325). -/
def JoinedTable.getPosReferences (t : JoinedTable) : List Int :=
  t.posRefs

/-- `JoinedData::getMetaData` (`src/eveH5.h` lines 285-290): metadata of
column `col`. -/
def JoinedTable.getMetaData (t : JoinedTable) (col : Nat) : Option MetaRecord :=
  t.metas[col]?

/-- `JoinedData::getColumnCount` (`src/eveH5.h` lines 303-307). -/
def JoinedTable.getColumnCount (t : JoinedTable) : Nat :=
  t.metas.length

/-- `JoinedData::getColumnType` (`src/eveH5.h` lines 315-320). -/
def JoinedTable.getColumnType (t : JoinedTable) (col : Nat) : Option DataType :=
  (t.metas[col]?).map (·.dataType)

/-- Whether a metadata record marks array data (spec section 3,
`MetaRecord`: "dimension (rows, columns — columns > 1 marks array
data)"). -/
def MetaRecord.isArrayData (m : MetaRecord) : Bool :=
  m.dimCols > 1

/-- Modelled from the spec: a raw `Data` object (`src/eveH5.h` lines
114-197, implementation not in the sources): its metadata, its series,
and the fixed per-row vector length of its array values. -/
structure RawData where
  meta : MetaRecord
  samples : List Sample
  arrayLen : Nat
deriving DecidableEq, Repr

/-- `Data::isArrayData` (`src/eveH5.h` lines 141-144). -/
def RawData.isArrayData (d : RawData) : Bool :=
  d.meta.isArrayData

/-- Modelled from the spec: `Data::getDataPointer` (`src/eveH5.h` lines
133-139, implementation not in the sources): "number of values in the
array or -1 if array data". -/
def RawData.getDataPointer (d : RawData) : Int :=
  if d.isArrayData then -1 else (d.samples.length : Int)

/-- Modelled from the spec: `Data::getArrayDataPointer` (`src/eveH5.h`
lines 124-131, implementation not in the sources): "number of values in
the array or -1 if not array data". -/
def RawData.getArrayDataPointer (d : RawData) (_posRef : Int) : Int :=
  if d.isArrayData then (d.arrayLen : Int) else -1

/-- Modelled from the spec: `JoinedData::getColumnPointer`
(`src/eveH5.h` lines 292-301, implementation not in the sources):
"number of values in the array or -1 if array data". -/
def JoinedTable.getColumnPointer (t : JoinedTable) (col : Nat) : Int :=
  match t.metas[col]? with
  | some m => if m.isArrayData then -1 else ((t.cells[col]?.getD []).length : Int)
  | none => -1

/-- Equality of join results is decidable, so concrete joins can be
checked by evaluation. -/
instance exceptJoinDecEq {ε α : Type} [DecidableEq ε] [DecidableEq α] :
    DecidableEq (Except ε α) := fun x y =>
  match x, y with
  | .ok a, .ok b =>
    if h : a = b then .isTrue (by rw [h])
    else .isFalse (fun hh => h (Except.ok.inj hh))
  | .ok _, .error _ => .isFalse (fun hh => Except.noConfusion hh)
  | .error _, .ok _ => .isFalse (fun hh => Except.noConfusion hh)
  | .error a, .error b =>
    if h : a = b then .isTrue (by rw [h])
    else .isFalse (fun hh => h (Except.error.inj hh))

/-! ### Concrete inputs: the worked example of spec section 8 -/

/-- Metadata of the example axis `A` (spec section 8). -/
def axisMeta : MetaRecord :=
  { name := "A", unit := "", id := "a", channelId := "", normalizeId := "",
    attributes := [], deviceType := .Axis, dataType := .DTfloat64,
    dimRows := 3, dimCols := 1 }

/-- Metadata of the example channel `C` (spec section 8), floating. -/
def chanMeta : MetaRecord :=
  { name := "C", unit := "", id := "c", channelId := "", normalizeId := "",
    attributes := [], deviceType := .Channel, dataType := .DTfloat64,
    dimRows := 3, dimCols := 1 }

/-- Metadata of an integer-typed channel, not NaN-fillable. -/
def intChanMeta : MetaRecord :=
  { name := "D", unit := "", id := "d", channelId := "", normalizeId := "",
    attributes := [], deviceType := .Channel, dataType := .DTint32,
    dimRows := 1, dimCols := 1 }

/-- Axis `A`: samples at positions `[1,3,5]` with values `[10,30,50]`. -/
def exA : Column :=
  { meta := axisMeta, samples := [⟨1, 10, none⟩, ⟨3, 30, none⟩, ⟨5, 50, none⟩] }

/-- Channel `C`: samples at positions `[1,2,5]` with values `[1,2,5]`. -/
def exC : Column :=
  { meta := chanMeta, samples := [⟨1, 1, none⟩, ⟨2, 2, none⟩, ⟨5, 5, none⟩] }

/-- A dense channel sampled at the same positions as `exA`. -/
def exCd : Column :=
  { meta := chanMeta, samples := [⟨1, 1, none⟩, ⟨3, 3, none⟩, ⟨5, 5, none⟩] }

/-- A one-sample axis, disjoint from `exCdisj`. -/
def exAd : Column :=
  { meta := axisMeta, samples := [⟨1, 10, none⟩] }

/-- A one-sample channel at position 2 only. -/
def exCdisj : Column :=
  { meta := chanMeta, samples := [⟨2, 2, none⟩] }

/-- A dense (single-sample) integer channel. -/
def intChan : Column :=
  { meta := intChanMeta, samples := [⟨1, 7, none⟩] }

/-- The joined table of `[exA, exC]` under `NoFill`. -/
def exTabNoFill : JoinedTable :=
  { posRefs := [1, 5], metas := [axisMeta, chanMeta],
    cells := [[.real 10 none, .real 50 none], [.real 1 none, .real 5 none]] }

/-- The joined table of `[exA, exC]` under `LastFill`. -/
def exTabLastFill : JoinedTable :=
  { posRefs := [1, 2, 3, 5], metas := [axisMeta, chanMeta],
    cells := [[.real 10 none, .filled 10, .real 30 none, .real 50 none],
              [.real 1 none, .real 2 none, .absent, .real 5 none]] }

/-- The joined table of `[exA, exC]` under `NANFill`. -/
def exTabNANFill : JoinedTable :=
  { posRefs := [1, 2, 3, 5], metas := [axisMeta, chanMeta],
    cells := [[.real 10 none, .absent, .real 30 none, .real 50 none],
              [.real 1 none, .real 2 none, .nan, .real 5 none]] }

/-- The joined table of `[exA, exC]` under `LastNANFill`. -/
def exTabLastNANFill : JoinedTable :=
  { posRefs := [1, 2, 3, 5], metas := [axisMeta, chanMeta],
    cells := [[.real 10 none, .filled 10, .real 30 none, .real 50 none],
              [.real 1 none, .real 2 none, .nan, .real 5 none]] }

/-- The joined table of the disjoint pair `[exAd, exCdisj]` under
`NoFill`: zero rows, a valid outcome. -/
def exEmptyTab : JoinedTable :=
  { posRefs := [], metas := [axisMeta, chanMeta], cells := [[], []] }

/-- A malformed axis series: position references `[3,1]` are not
strictly ascending. -/
def badCol : Column :=
  { meta := axisMeta, samples := [⟨3, 1, none⟩, ⟨1, 2, none⟩] }

/-- Metadata of an array-valued channel (`dimCols > 1`). -/
def arrMeta : MetaRecord :=
  { name := "V", unit := "", id := "v", channelId := "", normalizeId := "",
    attributes := [], deviceType := .Channel, dataType := .DTfloat64,
    dimRows := 2, dimCols := 5 }

/-- An array-valued raw data object. -/
def arrD : RawData :=
  { meta := arrMeta, samples := [⟨1, 0, none⟩, ⟨2, 0, none⟩], arrayLen := 5 }

/-- A scalar raw data object. -/
def scalD : RawData :=
  { meta := chanMeta, samples := [⟨1, 1, none⟩, ⟨2, 2, none⟩], arrayLen := 0 }

/-! ## Helper lemmas -/

/-- `strictlyAscending` is the adjacent-pairs chain of `<`. -/
theorem strictlyAscending_iff_chain' :
    ∀ l : List Int, strictlyAscending l = true ↔ List.Chain' (· < ·) l
  | [] => by simp [strictlyAscending]
  | [a] => by simp [strictlyAscending]
  | a :: b :: t => by
    have ih := strictlyAscending_iff_chain' (b :: t)
    show (decide (a < b) && strictlyAscending (b :: t)) = true ↔ _
    rw [List.chain'_cons, Bool.and_eq_true, decide_eq_true_eq, ih]

/-- `strictlyAscending` means sorted under `<` (hence also no
duplicates). -/
theorem strictlyAscending_iff_sorted (l : List Int) :
    strictlyAscending l = true ↔ l.Sorted (· < ·) := by
  rw [strictlyAscending_iff_chain', List.chain'_iff_pairwise]
  exact Iff.rfl

/-- Membership in `dedupSort` is membership in the original list. -/
theorem mem_dedupSort (l : List Int) (p : Int) : p ∈ dedupSort l ↔ p ∈ l := by
  unfold dedupSort
  rw [(List.perm_insertionSort _ _).mem_iff, List.mem_dedup]

/-- `dedupSort` has no duplicates. -/
theorem nodup_dedupSort (l : List Int) : (dedupSort l).Nodup :=
  (List.perm_insertionSort _ _).symm.nodup (List.nodup_dedup l)

/-- `dedupSort` is sorted strictly ascending. -/
theorem sorted_dedupSort (l : List Int) : (dedupSort l).Sorted (· < ·) :=
  (List.sorted_insertionSort _ _).lt_of_le (nodup_dedupSort l)

/-- Membership in the row index: a row is in some column (union), and
under `NoFill` it is in every column (intersection). -/
theorem mem_rowIndex (cols : List Column) (rule : FillRule) (p : Int) :
    p ∈ rowIndex cols rule ↔
      (∃ c ∈ cols, p ∈ c.posRefs) ∧
        (rule = .NoFill → ∀ c ∈ cols, p ∈ c.posRefs) := by
  have hu : ∀ q : Int, q ∈ dedupSort (cols.map Column.posRefs).flatten ↔
      ∃ c ∈ cols, q ∈ c.posRefs := by
    intro q
    rw [mem_dedupSort, List.mem_flatten]
    constructor
    · rintro ⟨l, hl, hq⟩
      obtain ⟨c, hc, rfl⟩ := List.mem_map.mp hl
      exact ⟨c, hc, hq⟩
    · rintro ⟨c, hc, hq⟩
      exact ⟨c.posRefs, List.mem_map.mpr ⟨c, hc, rfl⟩, hq⟩
  cases rule with
  | NoFill =>
    show p ∈ List.filter _ _ ↔ _
    rw [List.mem_filter, hu]
    simp only [List.all_eq_true, List.contains_iff_exists_mem_beq]
    constructor
    · rintro ⟨h1, h2⟩
      refine ⟨h1, fun _ => fun c hc => ?_⟩
      obtain ⟨q, hq, hbeq⟩ := h2 c hc
      rwa [show p = q from beq_iff_eq.mp hbeq]
    · rintro ⟨h1, h2⟩
      exact ⟨h1, fun c hc => ⟨p, h2 (by trivial) c hc, beq_iff_eq.mpr rfl⟩⟩
  | LastFill => simpa using hu p
  | NANFill => simpa using hu p
  | LastNANFill => simpa using hu p

/-- The row index is sorted strictly ascending for every rule. -/
theorem sorted_rowIndex (cols : List Column) (rule : FillRule) :
    (rowIndex cols rule).Sorted (· < ·) := by
  cases rule with
  | NoFill => exact (sorted_dedupSort _).filter _
  | LastFill => exact sorted_dedupSort _
  | NANFill => exact sorted_dedupSort _
  | LastNANFill => exact sorted_dedupSort _

/-- The row index has no duplicates for every rule. -/
theorem nodup_rowIndex (cols : List Column) (rule : FillRule) :
    (rowIndex cols rule).Nodup := by
  cases rule with
  | NoFill => exact (nodup_dedupSort _).filter _
  | LastFill => exact nodup_dedupSort _
  | NANFill => exact nodup_dedupSort _
  | LastNANFill => exact nodup_dedupSort _

/-- Inversion of a successful `combine`: both checks passed and the
table is the one built from the row index. -/
theorem combine_ok_iff (cols : List Column) (rule : FillRule) (t : JoinedTable) :
    combine cols rule = .ok t ↔
      malformedIdx cols = none ∧ unfillableIdx cols rule = none ∧
        t = { posRefs := rowIndex cols rule
              metas := cols.map Column.meta
              cells := cols.map fun c => (rowIndex cols rule).map (cellAt rule c) } := by
  unfold combine
  cases h1 : malformedIdx cols with
  | some i => simp [h1]
  | none =>
    cases h2 : unfillableIdx cols rule with
    | some i => simp [h2]
    | none => simp [h2, eq_comm]

/-- If adaptation found no malformed column, every column's series is
sorted strictly ascending. -/
theorem ascending_of_malformedIdx_none {cols : List Column}
    (h : malformedIdx cols = none) :
    ∀ c ∈ cols, c.posRefs.Sorted (· < ·) := by
  intro c hc
  rw [malformedIdx, List.findIdx?_eq_none_iff] at h
  have hb := h c hc
  rw [Bool.not_eq_false'] at hb
  exact (strictlyAscending_iff_sorted _).mp hb

/-- A sorted series is pairwise increasing on sample position
references. -/
theorem pairwise_posRef_of_sorted {c : Column} (h : c.posRefs.Sorted (· < ·)) :
    c.samples.Pairwise (fun a b => a.posRef < b.posRef) := by
  rw [Column.posRefs, List.Sorted, List.pairwise_map] at h
  exact h

/-- In a series pairwise increasing on position references, every
member's position reference is at most the last one's. -/
theorem posRef_le_getLast :
    ∀ (l : List Sample), l.Pairwise (fun a b => a.posRef < b.posRef) →
      ∀ m, l.getLast? = some m → ∀ x ∈ l, x.posRef ≤ m.posRef
  | [], _, m, hm, x, hx => by cases hx
  | [a], _, m, hm, x, hx => by
    rw [List.getLast?_singleton, Option.some.injEq] at hm
    rw [List.mem_singleton] at hx
    exact le_of_eq (by rw [hx, hm])
  | a :: b :: t, hp, m, hm, x, hx => by
    rw [List.getLast?_cons_cons] at hm
    rcases List.mem_cons.mp hx with rfl | hx'
    · have hmem : m ∈ b :: t := List.mem_of_mem_getLast? hm
      exact le_of_lt ((List.pairwise_cons.mp hp).1 m hmem)
    · exact posRef_le_getLast (b :: t) (List.pairwise_cons.mp hp).2 m hm x hx'

/-- What a successful `lastBefore` lookup yields: a member sample
strictly before `p`, maximal among all members strictly before `p`. -/
theorem lastBefore_eq_some {c : Column} {p : Int} {s : Sample}
    (hs : c.posRefs.Sorted (· < ·)) (h : lastBefore c.samples p = some s) :
    s ∈ c.samples ∧ s.posRef < p ∧
      ∀ x ∈ c.samples, x.posRef < p → x.posRef ≤ s.posRef := by
  have hpw := (pairwise_posRef_of_sorted hs).filter (fun x => decide (x.posRef < p))
  have hsmem : s ∈ c.samples.filter (fun x => decide (x.posRef < p)) :=
    List.mem_of_mem_getLast? h
  have hsm := List.mem_filter.mp hsmem
  refine ⟨hsm.1, by simpa using hsm.2, fun x hx hxp => ?_⟩
  exact posRef_le_getLast _ hpw s h x (List.mem_filter.mpr ⟨hx, by simpa using hxp⟩)

/-- `lastBefore` fails exactly when no sample lies strictly before `p`. -/
theorem lastBefore_eq_none {samples : List Sample} {p : Int} :
    lastBefore samples p = none ↔ ∀ x ∈ samples, ¬x.posRef < p := by
  unfold lastBefore
  rw [List.getLast?_eq_none_iff, List.filter_eq_nil_iff]
  simp

/-- The exact-sample lookup fails exactly when the position reference is
absent from the series. -/
theorem find?_posRef_eq_none {c : Column} {p : Int} :
    c.samples.find? (fun s => s.posRef == p) = none ↔ p ∉ c.posRefs := by
  rw [List.find?_eq_none, Column.posRefs]
  simp

/-- A successful exact-sample lookup returns a member sample at exactly
that position reference. -/
theorem find?_posRef_eq_some {c : Column} {p : Int} {s : Sample}
    (h : c.samples.find? (fun x => x.posRef == p) = some s) :
    s ∈ c.samples ∧ s.posRef = p :=
  ⟨List.mem_of_find?_eq_some h, by simpa using List.find?_some h⟩

/-- In a series with duplicate-free position references, looking up a
member sample's own position reference returns that sample. -/
theorem find?_posRef_self :
    ∀ (l : List Sample), (l.map (·.posRef)).Nodup → ∀ s ∈ l,
      l.find? (fun x => x.posRef == s.posRef) = some s
  | [], _, s, hs => by cases hs
  | a :: t, hnd, s, hs => by
    rw [List.map_cons, List.nodup_cons] at hnd
    rcases List.mem_cons.mp hs with rfl | hs'
    · exact List.find?_cons_of_pos _ (beq_iff_eq.mpr rfl)
    · have hne : (a.posRef == s.posRef) = false := by
        rw [beq_eq_false_iff_ne]
        intro hEq
        exact hnd.1 (hEq ▸ List.mem_map.mpr ⟨s, hs', rfl⟩)
      rw [List.find?_cons_of_neg _ (by simp [hne])]
      exact find?_posRef_self t hnd.2 s hs'

/-! ## Claim theorems -/

/-- C1: For the `NoFill` rule, the joined table's row set equals the
intersection of the position-reference sets of all input columns: every
produced row's position reference is present in every input column's
series, the table is empty iff that intersection is empty, and an empty
result is a valid, non-error outcome. -/
theorem noFill_rows_are_intersection (cols : List Column) (t : JoinedTable)
    (hne : cols ≠ []) (h : combine cols .NoFill = .ok t) :
    (∀ p : Int, p ∈ t.getPosReferences ↔ ∀ c ∈ cols, p ∈ c.posRefs) ∧
      (t.getPosReferences = [] ↔ ¬∃ p : Int, ∀ c ∈ cols, p ∈ c.posRefs) := by
  obtain ⟨h1, h2, rfl⟩ := (combine_ok_iff _ _ _).mp h
  have hmem : ∀ p : Int,
      p ∈ rowIndex cols .NoFill ↔ ∀ c ∈ cols, p ∈ c.posRefs := by
    intro p
    rw [mem_rowIndex]
    constructor
    · rintro ⟨-, h2'⟩
      exact h2' rfl
    · intro hall
      obtain ⟨c0, hc0⟩ := List.exists_mem_of_ne_nil cols hne
      exact ⟨⟨c0, hc0, hall c0 hc0⟩, fun _ => hall⟩
  refine ⟨hmem, ?_⟩
  simp only [JoinedTable.getPosReferences]
  rw [List.eq_nil_iff_forall_not_mem]
  constructor
  · rintro hno ⟨p, hp⟩
    exact hno p ((hmem p).mpr hp)
  · intro hno p hp
    exact hno ⟨p, (hmem p).mp hp⟩

/-- Witness for C1 at the concrete example columns: position 1 is a row
of the `NoFill` join of `[exA, exC]`; position 2 is not a row of the
`NoFill` join of the disjoint pair, whose empty table is a valid,
non-error outcome. -/
theorem noFill_rows_are_intersection_witness :
    ([exA, exC] ≠ ([] : List Column)) ∧
      (1 : Int) ∈ exTabNoFill.getPosReferences ∧
      combine [exAd, exCdisj] FillRule.NoFill = .ok exEmptyTab ∧
      (2 : Int) ∉ exEmptyTab.getPosReferences := by
  have h1 := noFill_rows_are_intersection [exA, exC] exTabNoFill
    (by decide) (by decide)
  have h2 := noFill_rows_are_intersection [exAd, exCdisj] exEmptyTab
    (by decide) (by decide)
  refine ⟨by decide, (h1.1 1).mpr (by decide), by decide, fun hmem => ?_⟩
  exact absurd ((h2.1 2).mp hmem) (by decide)

/-- C4: For every fill rule and every successful join, the output
position-reference sequence is strictly ascending with no duplicates,
and every column's buffer length equals the row count returned by
`getValueCount`. -/
theorem join_rows_sorted_buffers_sized (cols : List Column) (rule : FillRule)
    (t : JoinedTable) (h : combine cols rule = .ok t) :
    t.getPosReferences.Sorted (· < ·) ∧ t.getPosReferences.Nodup ∧
      ∀ buf ∈ t.cells, buf.length = t.getValueCount := by
  obtain ⟨h1, h2, rfl⟩ := (combine_ok_iff _ _ _).mp h
  refine ⟨sorted_rowIndex _ _, nodup_rowIndex _ _, ?_⟩
  intro buf hbuf
  obtain ⟨c, hc, rfl⟩ := List.mem_map.mp hbuf
  simp [JoinedTable.getValueCount]

/-- Witness for C4 at the `LastFill` join of the example columns. -/
theorem join_rows_sorted_buffers_sized_witness :
    exTabLastFill.getPosReferences.Sorted (· < ·) ∧
      (exTabLastFill.cells.getD 0 []).length = exTabLastFill.getValueCount := by
  have h := join_rows_sorted_buffers_sized [exA, exC] .LastFill exTabLastFill
    (by decide)
  exact ⟨h.1, h.2.2 _ (by decide)⟩

/-- C5: a call to `combine` on an input containing a series that is not
strictly ascending by position reference is rejected with
`MalformedSeries` naming a malformed column, and no joined table is
observable, for every fill rule. -/
theorem malformed_series_rejects_join (cols : List Column) (rule : FillRule)
    (h : ∃ c ∈ cols, strictlyAscending c.posRefs = false) :
    (∃ i, combine cols rule = .error (.MalformedSeries i) ∧
        ∃ hi : i < cols.length,
          strictlyAscending (cols.get ⟨i, hi⟩).posRefs = false) ∧
      ∀ t, combine cols rule ≠ .ok t := by
  have hne : malformedIdx cols ≠ none := by
    rw [malformedIdx, Ne, List.findIdx?_eq_none_iff]
    push_neg
    obtain ⟨c, hc, hcf⟩ := h
    exact ⟨c, hc, by simp [hcf]⟩
  obtain ⟨i, hi⟩ := Option.ne_none_iff_exists'.mp hne
  have hcomb : combine cols rule = .error (.MalformedSeries i) := by
    unfold combine
    rw [hi]
  have hi' := hi
  rw [malformedIdx, List.findIdx?_eq_some_iff_findIdx_eq] at hi'
  obtain ⟨hlt, hidx⟩ := hi'
  have hp : (!strictlyAscending (cols.get ⟨i, hlt⟩).posRefs) = true := by
    rw [List.get_eq_getElem]
    subst hidx
    exact List.findIdx_getElem (w := hlt)
  refine ⟨⟨i, hcomb, hlt, by simpa using hp⟩, fun t hok => ?_⟩
  rw [hcomb] at hok
  exact Except.noConfusion hok

/-- Witness for C5 at a two-sample series with descending position
references. -/
theorem malformed_series_rejects_join_witness :
    combine [badCol] FillRule.NoFill = .error (.MalformedSeries 0) ∧
      combine [badCol] FillRule.NoFill ≠ .ok exEmptyTab := by
  have h := malformed_series_rejects_join [badCol] .NoFill
    ⟨badCol, by decide, by decide⟩
  exact ⟨by decide, h.2 exEmptyTab⟩

/-- C8: every input column's metadata record is attached unchanged to
its output column, one-to-one and order-preserving, and the output
column's type tag is exactly the input's data type. -/
theorem metadata_attached_unchanged (cols : List Column) (rule : FillRule)
    (t : JoinedTable) (h : combine cols rule = .ok t) :
    t.getColumnCount = cols.length ∧
      ∀ i : Nat, ∀ hi : i < cols.length,
        t.getMetaData i = some (cols.get ⟨i, hi⟩).meta ∧
          t.getColumnType i = some (cols.get ⟨i, hi⟩).meta.dataType := by
  obtain ⟨h1, h2, rfl⟩ := (combine_ok_iff _ _ _).mp h
  refine ⟨by simp [JoinedTable.getColumnCount], fun i hi => ?_⟩
  constructor
  · simp [JoinedTable.getMetaData, List.getElem?_map, List.getElem?_eq_getElem hi]
  · simp [JoinedTable.getColumnType, List.getElem?_map, List.getElem?_eq_getElem hi]

/-- Witness for C8 at the `NoFill` join of the example columns. -/
theorem metadata_attached_unchanged_witness :
    exTabNoFill.getColumnCount = 2 ∧
      exTabNoFill.getMetaData 0 = some axisMeta ∧
      exTabNoFill.getColumnType 1 = some DataType.DTfloat64 := by
  have h := metadata_attached_unchanged [exA, exC] .NoFill exTabNoFill (by decide)
  refine ⟨h.1, ?_, ?_⟩
  · have := (h.2 0 (by decide)).1
    simpa [exA, axisMeta] using this
  · have := (h.2 1 (by decide)).2
    simpa [exC, chanMeta] using this

/-- C2: For the `LastFill` rule, the row set is the union of all
columns' position references, and every axis cell either exactly equals
a real sample at its row's position reference, or equals that axis's
most recent prior real sample (never a later one), or — for rows
preceding the axis's first real sample — is absent. -/
theorem lastFill_union_axis_carries_forward (cols : List Column)
    (t : JoinedTable) (h : combine cols .LastFill = .ok t) :
    (∀ p : Int, p ∈ t.getPosReferences ↔ ∃ c ∈ cols, p ∈ c.posRefs) ∧
      t.cells = cols.map (fun c => t.getPosReferences.map (cellAt .LastFill c)) ∧
      ∀ c ∈ cols, c.meta.deviceType = .Axis → ∀ p ∈ t.getPosReferences,
        (∃ s ∈ c.samples, s.posRef = p ∧
            cellAt .LastFill c p = .real s.value s.stats) ∨
          (∃ s ∈ c.samples, s.posRef < p ∧
              cellAt .LastFill c p = .filled s.value ∧
              ∀ x ∈ c.samples, x.posRef < p → x.posRef ≤ s.posRef) ∨
          (cellAt .LastFill c p = .absent ∧ ∀ s ∈ c.samples, p < s.posRef) := by
  obtain ⟨hmal, h2, rfl⟩ := (combine_ok_iff _ _ _).mp h
  refine ⟨?_, rfl, ?_⟩
  · intro p
    rw [show JoinedTable.getPosReferences
        { posRefs := rowIndex cols .LastFill
          metas := cols.map Column.meta
          cells := cols.map fun c => (rowIndex cols .LastFill).map (cellAt .LastFill c) } =
        rowIndex cols .LastFill from rfl, mem_rowIndex]
    simp
  · intro c hc hax p hp
    have hsorted := ascending_of_malformedIdx_none hmal c hc
    cases hf : c.samples.find? (fun s => s.posRef == p) with
    | some s =>
      left
      obtain ⟨hmem, hps⟩ := find?_posRef_eq_some hf
      refine ⟨s, hmem, hps, ?_⟩
      unfold cellAt
      rw [hf]
    | none =>
      have hcell : cellAt .LastFill c p =
          (match lastBefore c.samples p with
            | some s => Cell.filled s.value
            | none => Cell.absent) := by
        unfold cellAt
        rw [hf, hax]
        simp [FillRule.fillsAxis]
      cases hb : lastBefore c.samples p with
      | some s =>
        right; left
        obtain ⟨hmem, hlt, hmax⟩ := lastBefore_eq_some hsorted hb
        exact ⟨s, hmem, hlt, by rw [hcell, hb], hmax⟩
      | none =>
        right; right
        have hnone := lastBefore_eq_none.mp hb
        refine ⟨by rw [hcell, hb], fun s hs => ?_⟩
        have h1 : ¬s.posRef < p := hnone s hs
        have h2' : s.posRef ≠ p := by
          intro hEq
          exact (find?_posRef_eq_none.mp hf)
            (List.mem_map.mpr ⟨s, hs, hEq⟩)
        exact lt_of_le_of_ne (not_lt.mp h1) (Ne.symm h2')

/-- Witness for C2: position 2 (a row of channel `C` only) is a row of
the `LastFill` join of the example columns. -/
theorem lastFill_union_axis_carries_forward_witness :
    (2 : Int) ∈ exTabLastFill.getPosReferences := by
  have h := lastFill_union_axis_carries_forward [exA, exC] exTabLastFill
    (by decide)
  exact (h.1 2).mpr ⟨exC, by decide, by decide⟩

/-- C3: under `NANFill`, every channel cell whose position reference is
absent from the channel's raw series is the NaN sentinel; and requesting
`NANFill` with a channel column whose data type is not floating-point
fails with `UnfillableType` naming an offending column. -/
theorem nanFill_sentinel_and_unfillable (cols : List Column) :
    (∀ t : JoinedTable, combine cols .NANFill = .ok t →
        ∀ c ∈ cols, c.meta.deviceType = .Channel →
          ∀ p ∈ t.getPosReferences, p ∉ c.posRefs →
            cellAt .NANFill c p = .nan) ∧
      ((∀ c ∈ cols, strictlyAscending c.posRefs = true) →
        (∃ c ∈ cols, c.meta.deviceType = .Channel ∧
            c.meta.dataType.isFloating = false) →
        ∃ i, combine cols .NANFill = .error (.UnfillableType i) ∧
          ∃ hi : i < cols.length,
            (cols.get ⟨i, hi⟩).meta.deviceType = .Channel ∧
              (cols.get ⟨i, hi⟩).meta.dataType.isFloating = false) := by
  constructor
  · intro t ht c hc hchan p hp hnp
    unfold cellAt
    rw [find?_posRef_eq_none.mpr hnp, hchan]
    simp [FillRule.fillsChannel]
  · intro hasc hex
    have hmal : malformedIdx cols = none := by
      rw [malformedIdx, List.findIdx?_eq_none_iff]
      intro c hc
      rw [Bool.not_eq_false']
      exact hasc c hc
    have hne : unfillableIdx cols .NANFill ≠ none := by
      rw [unfillableIdx]
      simp only [FillRule.fillsChannel, if_true]
      rw [Ne, List.findIdx?_eq_none_iff]
      push_neg
      obtain ⟨c, hc, hchan, hfl⟩ := hex
      exact ⟨c, hc, by simp [hchan, hfl]⟩
    obtain ⟨i, hi⟩ := Option.ne_none_iff_exists'.mp hne
    have hcomb : combine cols .NANFill = .error (.UnfillableType i) := by
      unfold combine
      rw [hmal, hi]
    have hi' := hi
    rw [unfillableIdx] at hi'
    simp only [FillRule.fillsChannel, if_true] at hi'
    rw [List.findIdx?_eq_some_iff_findIdx_eq] at hi'
    obtain ⟨hlt, hidx⟩ := hi'
    have hp : ((cols.get ⟨i, hlt⟩).meta.deviceType == DeviceType.Channel &&
        !(cols.get ⟨i, hlt⟩).meta.dataType.isFloating) = true := by
      rw [List.get_eq_getElem]
      subst hidx
      exact List.findIdx_getElem (w := hlt)
    rw [Bool.and_eq_true, beq_iff_eq, Bool.not_eq_true'] at hp
    exact ⟨i, hcomb, hlt, hp.1, hp.2⟩

/-- Witness for C3: the channel cell of `C` at the gap row 3 of the
example `NANFill` join is the NaN sentinel, and the integer channel
makes the whole `NANFill` join fail with `UnfillableType 0`. -/
theorem nanFill_sentinel_and_unfillable_witness :
    cellAt FillRule.NANFill exC 3 = Cell.nan ∧
      combine [intChan] FillRule.NANFill = .error (.UnfillableType 0) := by
  constructor
  · exact (nanFill_sentinel_and_unfillable [exA, exC]).1 exTabNANFill
      (by decide) exC (by decide) (by decide) 3 (by decide) (by decide)
  · obtain ⟨i, hcomb, hlt, -⟩ :=
      (nanFill_sentinel_and_unfillable [intChan]).2 (by decide)
        ⟨intChan, by decide, by decide, by decide⟩
    obtain rfl : i = 0 := Nat.lt_one_iff.mp hlt
    exact hcomb

/-- C9: statistical fields appear in the joined output only where the
column has a real sample at the row's position reference: a cell equal
to `Cell.real v st` comes from a member sample with exactly that value
and those statistics, and a row whose position reference is absent from
the column's series never produces a `Cell.real` cell. -/
theorem stats_only_with_real_sample (cols : List Column) (rule : FillRule)
    (t : JoinedTable) (h : combine cols rule = .ok t) :
    t.cells = cols.map (fun c => t.getPosReferences.map (cellAt rule c)) ∧
      ∀ c ∈ cols, ∀ p : Int,
        (∀ v st, cellAt rule c p = .real v st →
            ∃ s ∈ c.samples, s.posRef = p ∧ s.value = v ∧ s.stats = st) ∧
          (p ∉ c.posRefs → ∀ v st, cellAt rule c p ≠ .real v st) := by
  obtain ⟨h1, h2, rfl⟩ := (combine_ok_iff _ _ _).mp h
  refine ⟨rfl, fun c hc p => ?_⟩
  cases hf : c.samples.find? (fun s => s.posRef == p) with
  | some s =>
    have hcell : cellAt rule c p = .real s.value s.stats := by
      unfold cellAt
      rw [hf]
    obtain ⟨hmem, hps⟩ := find?_posRef_eq_some hf
    constructor
    · intro v st hv
      rw [hcell] at hv
      injection hv with hv1 hv2
      exact ⟨s, hmem, hps, hv1, hv2⟩
    · intro hnp
      exact absurd (find?_posRef_eq_none.mpr hnp)
        (by rw [hf]; exact fun hh => Option.noConfusion hh)
  | none =>
    have hnr : ∀ v st, cellAt rule c p ≠ .real v st := by
      intro v st
      unfold cellAt
      rw [hf]
      cases c.meta.deviceType with
      | Axis =>
        cases hr : rule.fillsAxis with
        | true =>
          cases hb : lastBefore c.samples p with
          | some s => simp
          | none => simp
        | false => simp
      | Channel => cases hr : rule.fillsChannel <;> simp
      | Unknown => simp
    exact ⟨fun v st hv => absurd hv (hnr v st), fun _ => hnr⟩

/-- Witness for C9: the filled gap cell of channel `C` at row 3 of the
example `LastNANFill` join carries no real-sample payload. -/
theorem stats_only_with_real_sample_witness :
    cellAt FillRule.LastNANFill exC 3 ≠ Cell.real 0 none := by
  have h := stats_only_with_real_sample [exA, exC] .LastNANFill
    exTabLastNANFill (by decide)
  exact (h.2 exC (by decide) 3).2 (by decide) 0 none

/-- C10: array and scalar access paths are mutually exclusive and
signal misuse by returning -1: `getDataPointer` returns -1 on array
data, `getArrayDataPointer` returns -1 on non-array data, and
`getColumnPointer` returns -1 for an array-data column and otherwise
the number of values in the column's buffer (the row count). -/
theorem array_scalar_access_exclusive (d : RawData) (q : Int)
    (cols : List Column) (rule : FillRule) (t : JoinedTable) (col : Nat)
    (h : combine cols rule = .ok t) (hcol : col < t.getColumnCount) :
    (d.isArrayData = true → d.getDataPointer = -1) ∧
      (d.isArrayData = false → d.getArrayDataPointer q = -1) ∧
      ((t.getMetaData col).map MetaRecord.isArrayData = some true →
          t.getColumnPointer col = -1) ∧
      ((t.getMetaData col).map MetaRecord.isArrayData = some false →
          t.getColumnPointer col = (t.getValueCount : Int)) := by
  obtain ⟨h1, h2, rfl⟩ := (combine_ok_iff _ _ _).mp h
  have hlen : col < cols.length := by
    simpa [JoinedTable.getColumnCount] using hcol
  have hm : (cols.map Column.meta)[col]? = some (cols.get ⟨col, hlen⟩).meta := by
    simp [List.getElem?_map, List.getElem?_eq_getElem hlen]
  have hcell : (cols.map fun c => (rowIndex cols rule).map (cellAt rule c))[col]? =
      some ((rowIndex cols rule).map (cellAt rule (cols.get ⟨col, hlen⟩))) := by
    simp [List.getElem?_map, List.getElem?_eq_getElem hlen]
  refine ⟨?_, ?_, ?_, ?_⟩
  · intro hd
    simp [RawData.getDataPointer, hd]
  · intro hd
    simp [RawData.getArrayDataPointer, hd]
  · intro harr
    simp only [JoinedTable.getMetaData, hm, Option.map_some', Option.some.injEq,
      List.get_eq_getElem] at harr
    simp [JoinedTable.getColumnPointer, hm, harr]
  · intro harr
    simp only [JoinedTable.getMetaData, hm, Option.map_some', Option.some.injEq,
      List.get_eq_getElem] at harr
    simp [JoinedTable.getColumnPointer, hm, harr, hcell,
      JoinedTable.getValueCount]

/-- Witness for C10 at concrete raw data objects and the example
`NoFill` join. -/
theorem array_scalar_access_exclusive_witness :
    arrD.getDataPointer = -1 ∧ scalD.getArrayDataPointer 1 = -1 ∧
      exTabNoFill.getColumnPointer 0 = (exTabNoFill.getValueCount : Int) := by
  have h1 := array_scalar_access_exclusive arrD 1 [exA, exC] .NoFill
    exTabNoFill 0 (by decide) (by decide)
  have h2 := array_scalar_access_exclusive scalD 1 [exA, exC] .NoFill
    exTabNoFill 0 (by decide) (by decide)
  exact ⟨h1.1 (by decide), h2.2.1 (by decide), h1.2.2.2 (by decide)⟩

/-- C6 (amended): joining an already-dense input (every column sampled
exactly at the common position references `P`) returns a table identical
to the input — provided that, when the rule fills channels with NaN, no
channel column has a non-floating data type (otherwise the request-time
`UnfillableType` check rejects the join even though no fill is
needed). -/
theorem dense_join_identity (cols : List Column) (P : List Int) (rule : FillRule)
    (hne : cols ≠ []) (hP : strictlyAscending P = true)
    (hdense : ∀ c ∈ cols, c.posRefs = P)
    (hfill : rule.fillsChannel = true → ∀ c ∈ cols,
      c.meta.deviceType = .Channel → c.meta.dataType.isFloating = true) :
    combine cols rule = .ok
      { posRefs := P
        metas := cols.map Column.meta
        cells := cols.map fun c => c.samples.map fun s => .real s.value s.stats } := by
  have hPs : P.Sorted (· < ·) := (strictlyAscending_iff_sorted P).mp hP
  have hPnd : P.Nodup := hPs.imp (fun hab => ne_of_lt hab)
  have hmal : malformedIdx cols = none := by
    rw [malformedIdx, List.findIdx?_eq_none_iff]
    intro c hc
    rw [Bool.not_eq_false', hdense c hc]
    exact hP
  have hunf : unfillableIdx cols rule = none := by
    unfold unfillableIdx
    cases hr : rule.fillsChannel with
    | false => simp
    | true =>
      simp only [if_true]
      rw [List.findIdx?_eq_none_iff]
      intro c hc
      cases hdt : c.meta.deviceType with
      | Channel => simp [hdt, hfill hr c hc hdt]
      | Axis => simp [hdt]
      | Unknown => simp [hdt]
  have hrow : rowIndex cols rule = P := by
    have hmemiff : ∀ a : Int, a ∈ rowIndex cols rule ↔ a ∈ P := by
      intro a
      rw [mem_rowIndex]
      constructor
      · rintro ⟨⟨c, hc, hac⟩, -⟩
        rwa [hdense c hc] at hac
      · intro haP
        obtain ⟨c0, hc0⟩ := List.exists_mem_of_ne_nil cols hne
        exact ⟨⟨c0, hc0, by rw [hdense c0 hc0]; exact haP⟩,
          fun _ => fun c hc => by rw [hdense c hc]; exact haP⟩
    exact List.eq_of_perm_of_sorted
      ((List.perm_ext_iff_of_nodup (nodup_rowIndex cols rule) hPnd).mpr hmemiff)
      ((sorted_rowIndex cols rule).imp le_of_lt)
      (hPs.imp le_of_lt)
  rw [combine_ok_iff]
  refine ⟨hmal, hunf, ?_⟩
  rw [JoinedTable.mk.injEq]
  refine ⟨hrow.symm, rfl, ?_⟩
  rw [hrow]
  apply List.map_congr_left
  intro c hc
  have hcp : c.posRefs = P := hdense c hc
  have hnd : (c.samples.map (·.posRef)).Nodup := by
    rw [show c.samples.map (·.posRef) = c.posRefs from rfl, hcp]
    exact hPnd
  rw [← hcp, Column.posRefs, List.map_map]
  apply List.map_congr_left
  intro s hs
  show Cell.real s.value s.stats = cellAt rule c s.posRef
  unfold cellAt
  rw [find?_posRef_self c.samples hnd s hs]

/-- Witness for C6 (amended) at a dense two-column input under
`LastNANFill`. -/
theorem dense_join_identity_witness :
    combine [exA, exCd] FillRule.LastNANFill = .ok
      { posRefs := [1, 3, 5]
        metas := [axisMeta, chanMeta]
        cells := [[.real 10 none, .real 30 none, .real 50 none],
                  [.real 1 none, .real 3 none, .real 5 none]] } := by
  have h := dense_join_identity [exA, exCd] [1, 3, 5] .LastNANFill
    (by decide) (by decide) (by decide) (by decide)
  exact h

/-- Counterexample to C6 as stated: a dense input (one integer channel
with exactly one sample at its only position reference) joined under
`NANFill` is rejected with `UnfillableType`, not returned identically. -/
theorem dense_join_identity_counterexample :
    intChan.posRefs = [1] ∧
      combine [intChan] FillRule.NANFill = .error (.UnfillableType 0) ∧
      combine [intChan] FillRule.NANFill ≠ .ok
        { posRefs := [1], metas := [intChanMeta], cells := [[.real 7 none]] } := by
  refine ⟨by decide, by decide, by decide⟩

/-- C7 (amended): for axis `A` at `[1,3,5] = [10,30,50]` and channel
`C` at `[1,2,5] = [1,2,5]`: `NoFill` gives rows `[1,5]`, `A = [10,50]`,
`C = [1,5]`; `LastFill` gives rows `[1,2,3,5]`, `A = [10,10,30,50]`
(position 2 carried forward), `C` real at 1, 2 and 5 and absent at 3;
`NANFill` gives rows `[1,2,3,5]`, `C = [1,2,NaN,5]`, `A` real at 1, 3, 5
and absent at 2; `LastNANFill` gives `A = [10,10,30,50]` and
`C = [1,2,NaN,5]`. -/
theorem spec_example_joins :
    combine [exA, exC] FillRule.NoFill = .ok exTabNoFill ∧
      combine [exA, exC] FillRule.LastFill = .ok exTabLastFill ∧
      combine [exA, exC] FillRule.NANFill = .ok exTabNANFill ∧
      combine [exA, exC] FillRule.LastNANFill = .ok exTabLastNANFill := by
  refine ⟨by decide, by decide, by decide, by decide⟩

/-- Counterexample to C7 as stated: under `NANFill` the cell of channel
`C` at row 2 is the real sample of value 2, not the NaN sentinel the
claim asserts (`C = [1,NaN,NaN,5]`); the claim's channel buffer differs
from the produced one. -/
theorem spec_example_joins_counterexample :
    combine [exA, exC] FillRule.NANFill = .ok exTabNANFill ∧
      exTabNANFill.cells ≠
        [[.real 10 none, .absent, .real 30 none, .real 50 none],
         [.real 1 none, .nan, .nan, .real 5 none]] := by
  refine ⟨by decide, by decide⟩

end EveH5
